import Mathlib

/-!
# Verification of the waste-not backend core

A shallow embedding of the meal-plan backend: the response sanitizer
(`cleanAIResponse`), the prompt builders, the JSON codec used at the
storage and decoding boundaries (`stringifyJson` / `parseJsonTop`,
modelling JavaScript `JSON.stringify` / `JSON.parse`), the request
orchestrators of both server variants, and the persistence handlers.
JavaScript strings are modelled as `List Char` (Unicode scalar values);
JSON numbers are modelled as integers, since IEEE floating point is out
of scope.
-/

namespace WasteNot

/-- Whitespace recognised by JavaScript `String.prototype.trim` (the ASCII
part, which is all the source ever feeds it). -/
def isJsWs (c : Char) : Bool :=
  c == ' ' || c == '\t' || c == '\n' || c == '\r' || c == '\x0b' || c == '\x0c'

/-- JavaScript `text.trim()`: drop leading and trailing whitespace. -/
def jsTrim (l : List Char) : List Char :=
  (l.dropWhile isJsWs).rdropWhile isJsWs

/-- The fence-opening marker the sanitizer strips from the front. -/
def fenceOpen : List Char := "\x60\x60\x60json".toList

/-- The fence-closing marker the sanitizer strips from the back. -/
def fenceClose : List Char := "\x60\x60\x60".toList

/-- Line 17–19 of `src/server.js`: strip a leading fence-opening marker.
`substring(7)` is `drop 7`. -/
def stripFenceOpen (t : List Char) : List Char :=
  if fenceOpen.isPrefixOf t then jsTrim (t.drop 7) else t

/-- Line 20–22 of `src/server.js`: strip a trailing fence-closing marker.
`slice(0, -3)` is `take (length - 3)`. -/
def stripFenceClose (t : List Char) : List Char :=
  if fenceClose.isSuffixOf t then jsTrim (t.take (t.length - 3)) else t

/-- `cleanAIResponse` from `src/server.js` lines 14–24 (textually identical in
`src/unnamed/part_000` lines 13–23).  `none` models a `null`/`undefined`
argument; the `s = []` test is the JavaScript falsiness of `""` in
`if (!text) return ""`. -/
def cleanAIResponse (text : Option (List Char)) : List Char :=
  match text with
  | none => []
  | some s => if s = [] then [] else stripFenceClose (stripFenceOpen (jsTrim s))

theorem jsTrim_nil : jsTrim [] = [] := rfl

theorem length_dropWhile_le (p : Char → Bool) (l : List Char) :
    (l.dropWhile p).length ≤ l.length :=
  (List.dropWhile_suffix p).sublist.length_le

/-- `jsTrim` output is a fixed point of the leading-whitespace pass. -/
theorem dropWhile_jsTrim (l : List Char) :
    (jsTrim l).dropWhile isJsWs = jsTrim l := by
  rcases hy : jsTrim l with _ | ⟨a, ys⟩
  · rfl
  · obtain ⟨t, ht⟩ := List.rdropWhile_prefix isJsWs (l.dropWhile isJsWs)
    have hjs : List.rdropWhile isJsWs (l.dropWhile isJsWs) = jsTrim l := rfl
    rw [hjs, hy] at ht
    have hl' : 0 < (l.dropWhile isJsWs).length := by
      rw [← ht]; simp
    have hx : l.dropWhile isJsWs = a :: (ys ++ t) := by
      rw [← ht]; simp
    have hnot := List.dropWhile_get_zero_not isJsWs l hl'
    rw [List.get_of_eq hx] at hnot
    have ha : ¬ isJsWs a = true := hnot
    rw [List.dropWhile_cons_of_neg ha]

/-- `jsTrim` is idempotent. -/
theorem jsTrim_idem (l : List Char) : jsTrim (jsTrim l) = jsTrim l := by
  unfold jsTrim
  rw [show ((l.dropWhile isJsWs).rdropWhile isJsWs).dropWhile isJsWs
        = (l.dropWhile isJsWs).rdropWhile isJsWs from dropWhile_jsTrim l]
  exact List.rdropWhile_idempotent isJsWs (l.dropWhile isJsWs)

/-- The fence-opening pass preserves `jsTrim` fixed points. -/
theorem jsTrim_stripFenceOpen {t : List Char} (h : jsTrim t = t) :
    jsTrim (stripFenceOpen t) = stripFenceOpen t := by
  unfold stripFenceOpen
  split_ifs
  · exact jsTrim_idem _
  · exact h

/-- The fence-closing pass preserves `jsTrim` fixed points. -/
theorem jsTrim_stripFenceClose {t : List Char} (h : jsTrim t = t) :
    jsTrim (stripFenceClose t) = stripFenceClose t := by
  unfold stripFenceClose
  split_ifs
  · exact jsTrim_idem _
  · exact h

/-- Every branch of the sanitizer returns a `jsTrim` fixed point. -/
theorem jsTrim_cleanAIResponse (t : Option (List Char)) :
    jsTrim (cleanAIResponse t) = cleanAIResponse t := by
  match t with
  | none => rfl
  | some s =>
    by_cases hs : s = []
    · simp [cleanAIResponse, hs, jsTrim_nil]
    · simp only [cleanAIResponse, if_neg hs]
      exact jsTrim_stripFenceClose (jsTrim_stripFenceOpen (jsTrim_idem s))

/-- Lengths never grow through `jsTrim`. -/
theorem jsTrim_length_le (l : List Char) : (jsTrim l).length ≤ l.length := by
  unfold jsTrim List.rdropWhile
  calc ((l.dropWhile isJsWs).reverse.dropWhile isJsWs).reverse.length
      = ((l.dropWhile isJsWs).reverse.dropWhile isJsWs).length := List.length_reverse _
    _ ≤ (l.dropWhile isJsWs).reverse.length := length_dropWhile_le _ _
    _ = (l.dropWhile isJsWs).length := List.length_reverse _
    _ ≤ l.length := length_dropWhile_le _ _

theorem stripFenceOpen_length_le (t : List Char) :
    (stripFenceOpen t).length ≤ t.length := by
  unfold stripFenceOpen
  split_ifs
  · exact le_trans (jsTrim_length_le _) (by rw [List.length_drop]; omega)
  · exact le_refl _

theorem stripFenceClose_length_le (t : List Char) :
    (stripFenceClose t).length ≤ t.length := by
  unfold stripFenceClose
  split_ifs
  · exact le_trans (jsTrim_length_le _) (by rw [List.length_take]; omega)
  · exact le_refl _

/-- The sanitizer never lengthens its input. -/
theorem cleanAIResponse_length_le (s : List Char) :
    (cleanAIResponse (some s)).length ≤ s.length := by
  by_cases hs : s = []
  · simp [cleanAIResponse, hs]
  · simp only [cleanAIResponse, if_neg hs]
    exact le_trans (stripFenceClose_length_le _)
      (le_trans (stripFenceOpen_length_le _) (jsTrim_length_le s))

/-! ## The JSON value model

JavaScript values carried through `JSON.stringify` / `JSON.parse`.
Number leaves are modelled as integers (floating point is out of scope);
object components are ordered key/value sequences, as JavaScript objects
preserve insertion order.  Mutual companions `JsonList` / `JsonObj` stand
for arrays and objects so that mutual induction is available. -/

mutual

inductive Json where
  | null : Json
  | bool (b : Bool) : Json
  | num (n : Int) : Json
  | str (s : List Char) : Json
  | arr (xs : JsonList) : Json
  | obj (kvs : JsonObj) : Json
  deriving DecidableEq

inductive JsonList where
  | nil : JsonList
  | cons (hd : Json) (tl : JsonList) : JsonList
  deriving DecidableEq

inductive JsonObj where
  | nil : JsonObj
  | cons (k : List Char) (v : Json) (tl : JsonObj) : JsonObj
  deriving DecidableEq

end

/-- JavaScript truthiness of a JSON value, as tested by `if (!mealPlan)`,
`if (!mealData)` and `if (!mealId)` in `src/server.js`. -/
def jsTruthy : Json → Bool
  | .null => false
  | .bool b => b
  | .num n => n != 0
  | .str s => s != []
  | .arr _ => true
  | .obj _ => true

/-- The decimal digit characters, used by number printing. -/
def digitChar : Nat → Char
  | 0 => '0' | 1 => '1' | 2 => '2' | 3 => '3' | 4 => '4'
  | 5 => '5' | 6 => '6' | 7 => '7' | 8 => '8' | _ => '9'

/-- Lowercase hexadecimal digits, as emitted in `\u00XX` escapes. -/
def hexDigit : Nat → Char
  | 0 => '0' | 1 => '1' | 2 => '2' | 3 => '3' | 4 => '4'
  | 5 => '5' | 6 => '6' | 7 => '7' | 8 => '8' | 9 => '9'
  | 10 => 'a' | 11 => 'b' | 12 => 'c' | 13 => 'd' | 14 => 'e' | _ => 'f'

/-- Most-significant-first decimal digits, fuel-bounded so that the
recursion is structural (the fuel `n + 1` always suffices). -/
def natDigitsGo : Nat → Nat → List Char → List Char
  | 0, _, acc => acc
  | f + 1, n, acc =>
    if n < 10 then digitChar n :: acc
    else natDigitsGo f (n / 10) (digitChar (n % 10) :: acc)

def natDigits (n : Nat) : List Char := natDigitsGo (n + 1) n []

/-- Decimal rendering of an integer, as JavaScript string interpolation and
`JSON.stringify` print an integral number. -/
def intChars : Int → List Char
  | Int.ofNat n => natDigits n
  | Int.negSucc m => '-' :: natDigits (m + 1)

/-- `JSON.stringify` escaping of a single string character. -/
def escapeChar (c : Char) : List Char :=
  if c = '"' then ['\\', '"']
  else if c = '\\' then ['\\', '\\']
  else if c = '\x08' then ['\\', 'b']
  else if c = '\x0c' then ['\\', 'f']
  else if c = '\n' then ['\\', 'n']
  else if c = '\r' then ['\\', 'r']
  else if c = '\t' then ['\\', 't']
  else if c.toNat < 0x20 then
    ['\\', 'u', '0', '0', hexDigit (c.toNat / 16), hexDigit (c.toNat % 16)]
  else [c]

def escapeString (s : List Char) : List Char := s.flatMap escapeChar

/-- A JSON string literal: quote, escaped body, quote. -/
def quoteString (s : List Char) : List Char := '"' :: (escapeString s ++ ['"'])

mutual

/-- `JSON.stringify` with no spacing argument, as called by the
save/addFavorite handlers in `src/server.js`. -/
def stringifyJson : Json → List Char
  | .null => "null".toList
  | .bool true => "true".toList
  | .bool false => "false".toList
  | .num n => intChars n
  | .str s => quoteString s
  | .arr .nil => "[]".toList
  | .arr (.cons v t) => '[' :: (stringifyJson v ++ stringifyItems t ++ [']'])
  | .obj .nil => ['\x7b', '\x7d']
  | .obj (.cons k v t) =>
      '\x7b' :: (quoteString k ++ ':' :: (stringifyJson v ++ stringifyMembers t ++ ['\x7d']))

/-- Remaining array elements, each preceded by a comma. -/
def stringifyItems : JsonList → List Char
  | .nil => []
  | .cons v t => ',' :: (stringifyJson v ++ stringifyItems t)

/-- Remaining object members, each preceded by a comma. -/
def stringifyMembers : JsonObj → List Char
  | .nil => []
  | .cons k v t => ',' :: (quoteString k ++ ':' :: (stringifyJson v ++ stringifyMembers t))

end

/-! ## The JSON parser

A model of strict `JSON.parse`.  Token scanning is structural; descent
into nested values is bounded by fuel, which the top-level entry point
sets large enough for any input (each unit of fuel spent on descent
corresponds to at least half a consumed character). -/

/-- JSON insignificant whitespace (space, tab, line feed, carriage return). -/
def jsonWs (c : Char) : Bool :=
  c == ' ' || c == '\t' || c == '\n' || c == '\r'

def skipWs (l : List Char) : List Char := l.dropWhile jsonWs

/-- Value of a hexadecimal digit character, if it is one. -/
def hexVal (c : Char) : Option Nat :=
  if '0' ≤ c ∧ c ≤ '9' then some (c.toNat - 48)
  else if 'a' ≤ c ∧ c ≤ 'f' then some (c.toNat - 87)
  else if 'A' ≤ c ∧ c ≤ 'F' then some (c.toNat - 55)
  else none

/-- Body of a JSON string literal, after the opening quote: returns the
decoded characters and the input after the closing quote. -/
def parseStringBody : List Char → Option (List Char × List Char)
  | [] => none
  | c :: r =>
    if c = '"' then some ([], r)
    else if c = '\\' then
      match r with
      | [] => none
      | e :: r1 =>
        if e = '"' then (parseStringBody r1).map (fun p => ('"' :: p.1, p.2))
        else if e = '\\' then (parseStringBody r1).map (fun p => ('\\' :: p.1, p.2))
        else if e = '/' then (parseStringBody r1).map (fun p => ('/' :: p.1, p.2))
        else if e = 'b' then (parseStringBody r1).map (fun p => ('\x08' :: p.1, p.2))
        else if e = 'f' then (parseStringBody r1).map (fun p => ('\x0c' :: p.1, p.2))
        else if e = 'n' then (parseStringBody r1).map (fun p => ('\n' :: p.1, p.2))
        else if e = 'r' then (parseStringBody r1).map (fun p => ('\r' :: p.1, p.2))
        else if e = 't' then (parseStringBody r1).map (fun p => ('\t' :: p.1, p.2))
        else if e = 'u' then
          match r1 with
          | h1 :: h2 :: h3 :: h4 :: r2 =>
            match hexVal h1, hexVal h2, hexVal h3, hexVal h4 with
            | some a, some b, some c3, some d =>
              (parseStringBody r2).map
                (fun p => (Char.ofNat (((a * 16 + b) * 16 + c3) * 16 + d) :: p.1, p.2))
            | _, _, _, _ => none
          | _ => none
        else none
    else if c.toNat < 0x20 then none
    else (parseStringBody r).map (fun p => (c :: p.1, p.2))

/-- Accumulate decimal digits. -/
def parseDigitsAux (acc : Nat) : List Char → Nat × List Char
  | [] => (acc, [])
  | c :: r =>
    if c.isDigit then parseDigitsAux (acc * 10 + (c.toNat - 48)) r
    else (acc, c :: r)

/-- A JSON natural-number literal: `0`, or a nonzero digit followed by more
digits (the grammar forbids leading zeros). -/
def parseNat : List Char → Option (Nat × List Char)
  | [] => none
  | c :: r =>
    if c = '0' then some (0, r)
    else if c.isDigit then some (parseDigitsAux (c.toNat - 48) r)
    else none

mutual

/-- One JSON value, leading whitespace allowed.  Fraction and exponent
parts of numbers are not modelled (numbers are integers here). -/
def parseValue : Nat → List Char → Option (Json × List Char)
  | 0, _ => none
  | f + 1, l =>
    match skipWs l with
    | [] => none
    | c :: r =>
      if c = '"' then (parseStringBody r).map (fun p => (Json.str p.1, p.2))
      else if c = '[' then
        match skipWs r with
        | [] => none
        | d :: r2 =>
          if d = ']' then some (Json.arr .nil, r2)
          else (parseItems f (d :: r2)).map (fun p => (Json.arr p.1, p.2))
      else if c = '\x7b' then
        match skipWs r with
        | [] => none
        | d :: r2 =>
          if d = '\x7d' then some (Json.obj .nil, r2)
          else (parseMembers f (d :: r2)).map (fun p => (Json.obj p.1, p.2))
      else if c = '-' then (parseNat r).map (fun p => (Json.num (-(p.1 : Int)), p.2))
      else if c = 't' then
        match r with
        | 'r' :: 'u' :: 'e' :: r1 => some (Json.bool true, r1)
        | _ => none
      else if c = 'f' then
        match r with
        | 'a' :: 'l' :: 's' :: 'e' :: r1 => some (Json.bool false, r1)
        | _ => none
      else if c = 'n' then
        match r with
        | 'u' :: 'l' :: 'l' :: r1 => some (Json.null, r1)
        | _ => none
      else (parseNat (c :: r)).map (fun p => (Json.num (p.1 : Int), p.2))

/-- Elements of a nonempty array, up to and including the closing bracket. -/
def parseItems : Nat → List Char → Option (JsonList × List Char)
  | 0, _ => none
  | f + 1, l =>
    match parseValue f l with
    | none => none
    | some (v, r) =>
      match skipWs r with
      | ',' :: r1 => (parseItems f r1).map (fun p => (JsonList.cons v p.1, p.2))
      | ']' :: r1 => some (JsonList.cons v .nil, r1)
      | _ => none

/-- Members of a nonempty object, up to and including the closing brace. -/
def parseMembers : Nat → List Char → Option (JsonObj × List Char)
  | 0, _ => none
  | f + 1, l =>
    match skipWs l with
    | [] => none
    | c :: r =>
      if c = '"' then
        match parseStringBody r with
        | none => none
        | some (k, r1) =>
          match skipWs r1 with
          | ':' :: r2 =>
            match parseValue f r2 with
            | none => none
            | some (v, r3) =>
              match skipWs r3 with
              | ',' :: r4 => (parseMembers f r4).map (fun p => (JsonObj.cons k v p.1, p.2))
              | '\x7d' :: r4 => some (JsonObj.cons k v .nil, r4)
              | _ => none
          | _ => none
      else none

end

/-- `JSON.parse`: a single value spanning the whole text, with surrounding
whitespace allowed.  The fuel `2 * length + 2` exceeds what any descent
can use, so it never cuts a parse short. -/
def parseJsonTop (l : List Char) : Option Json :=
  match parseValue (2 * l.length + 2) l with
  | some (v, rest) => if skipWs rest = [] then some v else none
  | none => none

/-! ## Printer–parser agreement

`JSON.parse ∘ JSON.stringify` is the identity on JSON values; this is the
contract the save/list endpoints rely on. -/

mutual

/-- Node count of a value, a lower bound on fuel needed to parse it. -/
def sizeJ : Json → Nat
  | .arr xs => sizeL xs + 1
  | .obj kvs => sizeO kvs + 1
  | _ => 1

def sizeL : JsonList → Nat
  | .nil => 1
  | .cons v t => sizeJ v + sizeL t + 1

def sizeO : JsonObj → Nat
  | .nil => 1
  | .cons _ v t => sizeJ v + sizeO t + 1

end

/-- Whether a text begins with a decimal digit (which would extend a
preceding number literal). -/
def digitStart : List Char → Bool
  | [] => false
  | c :: _ => c.isDigit

theorem sizeJ_pos (v : Json) : 1 ≤ sizeJ v := by
  cases v <;> simp only [sizeJ] <;> omega

theorem skipWs_cons {c : Char} (l : List Char) (h : jsonWs c = false) :
    skipWs (c :: l) = c :: l := by
  unfold skipWs
  rw [List.dropWhile_cons_of_neg]
  simp [h]

theorem digitChar_spec {n : Nat} (h : n < 10) :
    (digitChar n).isDigit = true ∧ (digitChar n).toNat - 48 = n ∧
      jsonWs (digitChar n) = false ∧ (1 ≤ n → digitChar n ≠ '0') := by
  interval_cases n <;> exact ⟨by decide, by decide, by decide, by decide⟩

theorem natDigits_lt {n : Nat} (h : n < 10) : natDigits n = [digitChar n] := by
  simp only [natDigits, natDigitsGo, if_pos h]

/-- The fuel bound in `natDigitsGo` is irrelevant once it exceeds `n`, and
then the accumulator is simply appended. -/
theorem natDigitsGo_append (n : Nat) :
    ∀ f acc, n < f → natDigitsGo f n acc = natDigits n ++ acc := by
  induction n using Nat.strong_induction_on with
  | _ n ih =>
    intro f acc hf
    match f with
    | g + 1 =>
      by_cases h : n < 10
      · simp only [natDigitsGo, if_pos h, natDigits_lt h]
        rfl
      · have hd : n / 10 < n := Nat.div_lt_self (by omega) (by omega)
        have hg : n / 10 < g := by omega
        have e1 : natDigitsGo (g + 1) n acc
            = natDigitsGo g (n / 10) (digitChar (n % 10) :: acc) := by
          simp only [natDigitsGo, if_neg h]
        have e3 : natDigits n = natDigitsGo n (n / 10) [digitChar (n % 10)] := by
          simp only [natDigits, natDigitsGo, if_neg h]
        rw [e1, ih _ hd _ _ hg, e3, ih _ hd _ _ hd]
        simp

theorem natDigits_ge {n : Nat} (h : 10 ≤ n) :
    natDigits n = natDigits (n / 10) ++ [digitChar (n % 10)] := by
  have hd : n / 10 < n := Nat.div_lt_self (by omega) (by omega)
  have e3 : natDigits n = natDigitsGo n (n / 10) [digitChar (n % 10)] := by
    simp only [natDigits, natDigitsGo, if_neg (show ¬n < 10 by omega)]
  rw [e3, natDigitsGo_append _ _ _ hd]

/-- The first digit of `natDigits n`: it exists, is a digit, and is `'0'`
only when `n = 0`. -/
theorem natDigits_cons (n : Nat) :
    ∃ c cs, natDigits n = c :: cs ∧ c.isDigit = true ∧ (1 ≤ n → c ≠ '0') := by
  induction n using Nat.strong_induction_on with
  | _ n ih =>
    by_cases h : n < 10
    · exact ⟨digitChar n, [], by rw [natDigits_lt h], (digitChar_spec h).1,
        fun h1 => (digitChar_spec h).2.2.2 h1⟩
    · have hd : n / 10 < n := Nat.div_lt_self (by omega) (by omega)
      obtain ⟨c, cs, hc, hdig, hz⟩ := ih _ hd
      refine ⟨c, cs ++ [digitChar (n % 10)], ?_, hdig, fun _ => hz (by omega)⟩
      rw [natDigits_ge (by omega), hc]
      simp

/-- Every character of `natDigits n` is a digit. -/
theorem natDigits_digits (n : Nat) : ∀ c ∈ natDigits n, c.isDigit = true := by
  induction n using Nat.strong_induction_on with
  | _ n ih =>
    by_cases h : n < 10
    · rw [natDigits_lt h]
      intro c hc
      rw [List.mem_singleton] at hc
      subst hc
      exact (digitChar_spec h).1
    · have hd : n / 10 < n := Nat.div_lt_self (by omega) (by omega)
      rw [natDigits_ge (by omega)]
      intro c hc
      rcases List.mem_append.mp hc with h1 | h1
      · exact ih _ hd c h1
      · rw [List.mem_singleton] at h1
        subst h1
        exact (digitChar_spec (Nat.mod_lt _ (by omega))).1

/-- The folding step used to read a digit string back as a number. -/
def digitStep (a : Nat) (c : Char) : Nat := a * 10 + (c.toNat - 48)

theorem parseDigitsAux_spec :
    ∀ (ds : List Char) (acc : Nat) (rest : List Char),
      (∀ c ∈ ds, c.isDigit = true) → digitStart rest = false →
      parseDigitsAux acc (ds ++ rest) = (List.foldl digitStep acc ds, rest) := by
  intro ds
  induction ds with
  | nil =>
    intro acc rest _ hrest
    match rest with
    | [] => rfl
    | c :: r =>
      simp only [digitStart] at hrest
      simp [parseDigitsAux, hrest]
  | cons d ds ih =>
    intro acc rest hds hrest
    have hd : d.isDigit = true := hds d (by simp)
    rw [List.cons_append]
    simp only [parseDigitsAux, hd, if_pos, List.append_eq]
    rw [ih _ rest (fun c hc => hds c (by simp [hc])) hrest]
    rfl

/-- Reading back the printed digits of `n` from any start value. -/
theorem foldl_natDigits (n : Nat) : List.foldl digitStep 0 (natDigits n) = n := by
  induction n using Nat.strong_induction_on with
  | _ n ih =>
    by_cases h : n < 10
    · rw [natDigits_lt h]
      simp [digitStep, (digitChar_spec h).2.1]
    · have hd : n / 10 < n := Nat.div_lt_self (by omega) (by omega)
      rw [natDigits_ge (by omega), List.foldl_append, ih _ hd]
      have hm := (digitChar_spec (Nat.mod_lt n (show 0 < 10 by omega))).2.1
      simp [digitStep, hm]
      omega

/-- `parseNat` reads back `natDigits n` exactly when no digit follows. -/
theorem parseNat_natDigits (n : Nat) (rest : List Char) (hrest : digitStart rest = false) :
    parseNat (natDigits n ++ rest) = some (n, rest) := by
  obtain ⟨c, cs, hc, hdig, hz⟩ := natDigits_cons n
  by_cases h0 : n = 0
  · subst h0
    rw [natDigits_lt (by omega)]
    simp [parseNat, digitChar]
  · have hc0 : c ≠ '0' := hz (by omega)
    rw [hc, List.cons_append, parseNat, if_neg hc0, if_pos hdig]
    have hcs : ∀ x ∈ cs, x.isDigit = true := by
      intro x hx
      exact natDigits_digits n x (by rw [hc]; simp [hx])
    rw [parseDigitsAux_spec cs _ rest hcs hrest]
    have : List.foldl digitStep 0 (c :: cs) = n := by rw [← hc]; exact foldl_natDigits n
    simp only [List.foldl_cons] at this
    have hstep : digitStep 0 c = c.toNat - 48 := by simp [digitStep]
    rw [hstep] at this
    rw [this]

theorem hexVal_hexDigit {n : Nat} (h : n < 16) : hexVal (hexDigit n) = some n := by
  interval_cases n <;> decide

/-- Decoding inverts `escapeChar`: reading the escape of `c` continues the
string body with `c` prepended. -/
theorem parseStringBody_escape (s rest : List Char) :
    parseStringBody (escapeString s ++ ('"' :: rest)) = some (s, rest) := by
  induction s with
  | nil =>
    rw [show escapeString [] = [] from rfl, List.nil_append, parseStringBody.eq_def]
    simp
  | cons c s ih =>
    have hesc : escapeString (c :: s) = escapeChar c ++ escapeString s := by
      simp [escapeString]
    rw [hesc, List.append_assoc]
    by_cases h1 : c = '"'
    · subst h1
      rw [show escapeChar '"' = ['\\', '"'] from by decide]
      rw [List.cons_append, List.cons_append, List.nil_append, parseStringBody.eq_def]
      simp [ih]
    · by_cases h2 : c = '\\'
      · subst h2
        rw [show escapeChar '\\' = ['\\', '\\'] from by decide]
        rw [List.cons_append, List.cons_append, List.nil_append, parseStringBody.eq_def]
        simp [ih]
      · by_cases h3 : c = '\x08'
        · subst h3
          rw [show escapeChar '\x08' = ['\\', 'b'] from by decide]
          rw [List.cons_append, List.cons_append, List.nil_append, parseStringBody.eq_def]
          simp [ih]
        · by_cases h4 : c = '\x0c'
          · subst h4
            rw [show escapeChar '\x0c' = ['\\', 'f'] from by decide]
            rw [List.cons_append, List.cons_append, List.nil_append, parseStringBody.eq_def]
            simp [ih]
          · by_cases h5 : c = '\n'
            · subst h5
              rw [show escapeChar '\n' = ['\\', 'n'] from by decide]
              rw [List.cons_append, List.cons_append, List.nil_append, parseStringBody.eq_def]
              simp [ih]
            · by_cases h6 : c = '\r'
              · subst h6
                rw [show escapeChar '\r' = ['\\', 'r'] from by decide]
                rw [List.cons_append, List.cons_append, List.nil_append,
                  parseStringBody.eq_def]
                simp [ih]
              · by_cases h7 : c = '\t'
                · subst h7
                  rw [show escapeChar '\t' = ['\\', 't'] from by decide]
                  rw [List.cons_append, List.cons_append, List.nil_append,
                    parseStringBody.eq_def]
                  simp [ih]
                · by_cases h8 : c.toNat < 0x20
                  · have hhi : c.toNat / 16 < 16 := by omega
                    have hlo : c.toNat % 16 < 16 := by omega
                    have hchar : Char.ofNat (c.toNat / 16 * 16 + c.toNat % 16) = c := by
                      conv_rhs => rw [← Char.ofNat_toNat c]
                      congr 1
                      omega
                    simp only [escapeChar, if_neg h1, if_neg h2, if_neg h3, if_neg h4,
                      if_neg h5, if_neg h6, if_neg h7, if_pos h8]
                    rw [List.cons_append, List.cons_append, List.cons_append,
                      List.cons_append, List.cons_append, List.cons_append,
                      List.nil_append, parseStringBody.eq_def]
                    simp [show hexVal '0' = some 0 from by decide,
                      hexVal_hexDigit hhi, hexVal_hexDigit hlo, ih, hchar]
                  · simp only [escapeChar, if_neg h1, if_neg h2, if_neg h3, if_neg h4,
                      if_neg h5, if_neg h6, if_neg h7, if_neg h8]
                    rw [List.cons_append, List.nil_append, parseStringBody.eq_def]
                    simp [if_neg h1, if_neg h2, if_neg h8, ih]

theorem sizeL_pos (x : JsonList) : 1 ≤ sizeL x := by
  cases x <;> simp only [sizeL] <;> omega

theorem sizeO_pos (x : JsonObj) : 1 ≤ sizeO x := by
  cases x <;> simp only [sizeO] <;> omega

theorem jsonWs_of_isDigit {c : Char} (h : c.isDigit = true) : jsonWs c = false := by
  cases hw : jsonWs c with
  | false => rfl
  | true =>
    exfalso
    simp only [jsonWs, Bool.or_eq_true, beq_iff_eq] at hw
    rcases hw with ((h' | h') | h') | h' <;> subst h' <;> exact absurd h (by decide)

/-- A digit character is none of the tokens that start another kind of
JSON value, nor a closing bracket or brace. -/
theorem digit_ne {c : Char} (h : c.isDigit = true) :
    c ≠ '"' ∧ c ≠ '[' ∧ c ≠ '\x7b' ∧ c ≠ '-' ∧ c ≠ 't' ∧ c ≠ 'f' ∧ c ≠ 'n' ∧
      c ≠ ']' ∧ c ≠ '\x7d' := by
  refine ⟨?_, ?_, ?_, ?_, ?_, ?_, ?_, ?_, ?_⟩ <;>
    exact fun hc => absurd h (by subst hc; decide)

/-- The text of the elements of a nonempty array (no brackets). -/
def itemsBody : JsonList → List Char
  | .nil => []
  | .cons v t => stringifyJson v ++ stringifyItems t

/-- The text of the members of a nonempty object (no braces). -/
def membersBody : JsonObj → List Char
  | .nil => []
  | .cons k v t => quoteString k ++ ':' :: (stringifyJson v ++ stringifyMembers t)

/-- The first character of a printed value: never whitespace, never a
closing bracket or brace. -/
theorem stringify_head (v : Json) :
    ∃ c cs, stringifyJson v = c :: cs ∧ jsonWs c = false ∧ c ≠ ']' ∧ c ≠ '\x7d' := by
  cases v with
  | null => exact ⟨'n', _, rfl, by decide, by decide, by decide⟩
  | bool b =>
    cases b
    · exact ⟨'f', _, rfl, by decide, by decide, by decide⟩
    · exact ⟨'t', _, rfl, by decide, by decide, by decide⟩
  | num n =>
    cases n with
    | ofNat m =>
      obtain ⟨c, cs, hc, hdig, _⟩ := natDigits_cons m
      obtain ⟨_, _, _, _, _, _, _, hrb, hcb⟩ := digit_ne hdig
      exact ⟨c, cs, by simp only [stringifyJson, intChars]; exact hc,
        jsonWs_of_isDigit hdig, hrb, hcb⟩
    | negSucc m =>
      exact ⟨'-', natDigits (m + 1), by simp only [stringifyJson, intChars],
        by decide, by decide, by decide⟩
  | str s => exact ⟨'"', _, rfl, by decide, by decide, by decide⟩
  | arr xs =>
    cases xs
    · exact ⟨'[', _, rfl, by decide, by decide, by decide⟩
    · exact ⟨'[', _, rfl, by decide, by decide, by decide⟩
  | obj kvs =>
    cases kvs
    · exact ⟨'\x7b', _, rfl, by decide, by decide, by decide⟩
    · exact ⟨'\x7b', _, rfl, by decide, by decide, by decide⟩

/-- After the items of an array, the next character is a comma or the
closing bracket, never a digit. -/
theorem digitStart_items (t : JsonList) (rest : List Char) :
    digitStart (stringifyItems t ++ (']' :: rest)) = false := by
  cases t
  · simp [stringifyItems, digitStart]
  · simp [stringifyItems, digitStart]

theorem digitStart_members (t : JsonObj) (rest : List Char) :
    digitStart (stringifyMembers t ++ ('\x7d' :: rest)) = false := by
  cases t
  · simp [stringifyMembers, digitStart]
  · simp [stringifyMembers, digitStart]

mutual

/-- Completeness of the parser on printer output: reading a printed value
consumes exactly its text and returns the value, for any fuel at least the
node count and any following text that cannot extend a number literal. -/
theorem parseValue_print (v : Json) :
    ∀ f rest, sizeJ v ≤ f → digitStart rest = false →
      parseValue f (stringifyJson v ++ rest) = some (v, rest) := by
  cases v with
  | null =>
    intro f rest hf hrest
    cases f with
    | zero => exact absurd (le_trans (sizeJ_pos _) hf) (by omega)
    | succ g =>
      rw [show stringifyJson Json.null = ['n', 'u', 'l', 'l'] from rfl, parseValue.eq_def]
      simp [skipWs_cons, jsonWs]
  | bool b =>
    intro f rest hf hrest
    cases f with
    | zero => exact absurd (le_trans (sizeJ_pos _) hf) (by omega)
    | succ g =>
      cases b
      · rw [show stringifyJson (Json.bool false) = ['f', 'a', 'l', 's', 'e'] from rfl,
          parseValue.eq_def]
        simp [skipWs_cons, jsonWs]
      · rw [show stringifyJson (Json.bool true) = ['t', 'r', 'u', 'e'] from rfl,
          parseValue.eq_def]
        simp [skipWs_cons, jsonWs]
  | num n =>
    intro f rest hf hrest
    cases f with
    | zero => exact absurd (le_trans (sizeJ_pos _) hf) (by omega)
    | succ g =>
      cases n with
      | ofNat m =>
        obtain ⟨c, cs, hc, hdig, _⟩ := natDigits_cons m
        obtain ⟨hq, hlb, hob, hmi, ht, hfa, hnu, _, _⟩ := digit_ne hdig
        have hin : stringifyJson (Json.num (Int.ofNat m)) ++ rest = c :: (cs ++ rest) := by
          simp only [stringifyJson, intChars, hc, List.cons_append]
        rw [hin, parseValue.eq_def]
        simp only [skipWs_cons _ (jsonWs_of_isDigit hdig), if_neg hq, if_neg hlb,
          if_neg hob, if_neg hmi, if_neg ht, if_neg hfa, if_neg hnu]
        rw [show c :: (cs ++ rest) = natDigits m ++ rest by rw [hc]; simp,
          parseNat_natDigits m rest hrest]
        rfl
      | negSucc m =>
        have hin : stringifyJson (Json.num (Int.negSucc m)) ++ rest
            = '-' :: (natDigits (m + 1) ++ rest) := by
          simp only [stringifyJson, intChars, List.cons_append]
        rw [hin, parseValue.eq_def]
        simp only [skipWs_cons _ (show jsonWs '-' = false from by decide),
          if_neg (show ¬('-' = '"') from by decide),
          if_neg (show ¬('-' = '[') from by decide),
          if_neg (show ¬('-' = '\x7b') from by decide), if_pos (Eq.refl '-')]
        rw [parseNat_natDigits (m + 1) rest hrest]
        simp [Int.negSucc_eq]
  | str s =>
    intro f rest hf hrest
    cases f with
    | zero => exact absurd (le_trans (sizeJ_pos _) hf) (by omega)
    | succ g =>
      have hin : stringifyJson (Json.str s) ++ rest
          = '"' :: (escapeString s ++ ('"' :: rest)) := by
        simp [stringifyJson, quoteString, List.append_assoc]
      rw [hin, parseValue.eq_def]
      simp only [skipWs_cons _ (show jsonWs '"' = false from by decide)]
      simp [parseStringBody_escape]
  | arr xs =>
    cases xs with
    | nil =>
      intro f rest hf hrest
      cases f with
      | zero => exact absurd (le_trans (sizeJ_pos _) hf) (by omega)
      | succ g =>
        rw [show stringifyJson (Json.arr .nil) = ['[', ']'] from rfl, parseValue.eq_def]
        simp [skipWs_cons, jsonWs]
    | cons v t =>
      intro f rest hf hrest
      cases f with
      | zero => exact absurd (le_trans (sizeJ_pos _) hf) (by omega)
      | succ g =>
        obtain ⟨d, ds, hd, hdws, hdne, _⟩ := stringify_head v
        have hsize : sizeL (JsonList.cons v t) ≤ g := by
          simp only [sizeJ] at hf
          omega
        have hitems := parseItems_print (JsonList.cons v t) g rest (by simp) hsize hrest
        have harr : stringifyJson (Json.arr (JsonList.cons v t)) ++ rest
            = '[' :: (d :: (ds ++ (stringifyItems t ++ (']' :: rest)))) := by
          simp [stringifyJson, hd, List.append_assoc]
        have hback : d :: (ds ++ (stringifyItems t ++ (']' :: rest)))
            = itemsBody (JsonList.cons v t) ++ (']' :: rest) := by
          simp [itemsBody, hd, List.append_assoc]
        rw [harr, parseValue.eq_def]
        simp only [skipWs_cons _ (show jsonWs '[' = false from by decide),
          skipWs_cons _ hdws, if_neg (show ¬('[' = '"') from by decide),
          if_pos (Eq.refl '['), if_neg hdne]
        rw [hback, hitems]
        rfl
  | obj kvs =>
    cases kvs with
    | nil =>
      intro f rest hf hrest
      cases f with
      | zero => exact absurd (le_trans (sizeJ_pos _) hf) (by omega)
      | succ g =>
        rw [show stringifyJson (Json.obj .nil) = ['\x7b', '\x7d'] from rfl, parseValue.eq_def]
        simp [skipWs_cons, jsonWs]
    | cons k v t =>
      intro f rest hf hrest
      cases f with
      | zero => exact absurd (le_trans (sizeJ_pos _) hf) (by omega)
      | succ g =>
        have hsize : sizeO (JsonObj.cons k v t) ≤ g := by
          simp only [sizeJ] at hf
          omega
        have hmem := parseMembers_print (JsonObj.cons k v t) g rest (by simp) hsize hrest
        have hobj : stringifyJson (Json.obj (JsonObj.cons k v t)) ++ rest
            = '\x7b' :: ('"' :: ((escapeString k ++
                ('"' :: (':' :: (stringifyJson v ++ (stringifyMembers t ++ ('\x7d' :: rest))))))))
              := by
          simp [stringifyJson, quoteString, List.append_assoc]
        have hback : ('"' : Char) :: (escapeString k ++
              ('"' :: (':' :: (stringifyJson v ++ (stringifyMembers t ++ ('\x7d' :: rest))))))
            = membersBody (JsonObj.cons k v t) ++ ('\x7d' :: rest) := by
          simp [membersBody, quoteString, List.append_assoc]
        rw [hobj, parseValue.eq_def]
        simp only [skipWs_cons _ (show jsonWs '\x7b' = false from by decide),
          skipWs_cons _ (show jsonWs '"' = false from by decide),
          if_neg (show ¬('\x7b' = '"') from by decide),
          if_neg (show ¬('\x7b' = '[') from by decide), if_pos (Eq.refl '\x7b'),
          if_neg (show ¬('"' = '\x7d') from by decide)]
        rw [hback, hmem]
        rfl

/-- Companion for nonempty arrays: the element texts, then the closing
bracket, read back as the element list. -/
theorem parseItems_print (x : JsonList) :
    ∀ f rest, x ≠ .nil → sizeL x ≤ f → digitStart rest = false →
      parseItems f (itemsBody x ++ (']' :: rest)) = some (x, rest) := by
  cases x with
  | nil => exact fun f rest hne _ _ => absurd rfl hne
  | cons v t =>
    intro f rest _ hsize hrest
    cases f with
    | zero => exact absurd (le_trans (sizeL_pos _) hsize) (by omega)
    | succ g =>
      have hv : sizeJ v ≤ g := by
        have := sizeL_pos t
        simp only [sizeL] at hsize
        omega
      have hvp := parseValue_print v g (stringifyItems t ++ (']' :: rest)) hv
        (digitStart_items t rest)
      have hin : itemsBody (JsonList.cons v t) ++ (']' :: rest)
          = stringifyJson v ++ (stringifyItems t ++ (']' :: rest)) := by
        simp [itemsBody, List.append_assoc]
      rw [hin, parseItems.eq_def]
      simp only [hvp]
      cases t with
      | nil =>
        rw [show stringifyItems JsonList.nil = [] from rfl, List.nil_append]
        simp only [skipWs_cons _ (show jsonWs ']' = false from by decide)]
      | cons v2 t2 =>
        have ht2 : sizeL (JsonList.cons v2 t2) ≤ g := by
          have := sizeJ_pos v
          simp only [sizeL] at hsize ⊢
          omega
        have hrec := parseItems_print (JsonList.cons v2 t2) g rest (by simp) ht2 hrest
        have hstep : stringifyItems (JsonList.cons v2 t2) ++ (']' :: rest)
            = ',' :: (itemsBody (JsonList.cons v2 t2) ++ (']' :: rest)) := by
          simp [stringifyItems, itemsBody, List.append_assoc]
        rw [hstep]
        simp only [skipWs_cons _ (show jsonWs ',' = false from by decide)]
        rw [hrec]
        rfl

/-- Companion for nonempty objects: the member texts, then the closing
brace, read back as the member list. -/
theorem parseMembers_print (x : JsonObj) :
    ∀ f rest, x ≠ .nil → sizeO x ≤ f → digitStart rest = false →
      parseMembers f (membersBody x ++ ('\x7d' :: rest)) = some (x, rest) := by
  cases x with
  | nil => exact fun f rest hne _ _ => absurd rfl hne
  | cons k v t =>
    intro f rest _ hsize hrest
    cases f with
    | zero => exact absurd (le_trans (sizeO_pos _) hsize) (by omega)
    | succ g =>
      have hv : sizeJ v ≤ g := by
        have := sizeO_pos t
        simp only [sizeO] at hsize
        omega
      have hvp := parseValue_print v g (stringifyMembers t ++ ('\x7d' :: rest)) hv
        (digitStart_members t rest)
      have hin : membersBody (JsonObj.cons k v t) ++ ('\x7d' :: rest)
          = '"' :: (escapeString k ++
              ('"' :: (':' :: (stringifyJson v ++ (stringifyMembers t ++ ('\x7d' :: rest)))))) := by
        simp [membersBody, quoteString, List.append_assoc]
      rw [hin, parseMembers.eq_def]
      simp only [skipWs_cons _ (show jsonWs '"' = false from by decide),
        if_pos (Eq.refl '"'), parseStringBody_escape k,
        skipWs_cons _ (show jsonWs ':' = false from by decide), hvp]
      cases t with
      | nil =>
        rw [show stringifyMembers JsonObj.nil = [] from rfl, List.nil_append]
        simp only [skipWs_cons _ (show jsonWs '\x7d' = false from by decide)]
        simp
      | cons k2 v2 t2 =>
        have ht2 : sizeO (JsonObj.cons k2 v2 t2) ≤ g := by
          have := sizeJ_pos v
          simp only [sizeO] at hsize ⊢
          omega
        have hrec := parseMembers_print (JsonObj.cons k2 v2 t2) g rest (by simp) ht2 hrest
        have hstep : stringifyMembers (JsonObj.cons k2 v2 t2) ++ ('\x7d' :: rest)
            = ',' :: (membersBody (JsonObj.cons k2 v2 t2) ++ ('\x7d' :: rest)) := by
          simp [stringifyMembers, membersBody, List.append_assoc]
        rw [hstep]
        simp only [skipWs_cons _ (show jsonWs ',' = false from by decide)]
        rw [hrec]
        rfl

end

mutual

/-- The node count is at most twice the printed length, so the top-level
fuel `2 * length + 2` always suffices. -/
theorem sizeJ_le (v : Json) : sizeJ v ≤ 2 * (stringifyJson v).length := by
  cases v with
  | null => decide
  | bool b => cases b <;> decide
  | num n =>
    obtain ⟨c, cs, hc, -, -, -⟩ := stringify_head (Json.num n)
    rw [hc]
    simp only [sizeJ, List.length_cons]
    omega
  | str s =>
    obtain ⟨c, cs, hc, -, -, -⟩ := stringify_head (Json.str s)
    rw [hc]
    simp only [sizeJ, List.length_cons]
    omega
  | arr xs =>
    cases xs with
    | nil => decide
    | cons v t =>
      have h1 := sizeJ_le v
      have h2 := sizeL_le t
      simp only [sizeJ, sizeL, stringifyJson, List.length_cons, List.length_append,
        List.length_nil]
      omega
  | obj kvs =>
    cases kvs with
    | nil => decide
    | cons k v t =>
      have h1 := sizeJ_le v
      have h2 := sizeO_le t
      simp only [sizeJ, sizeO, stringifyJson, quoteString, List.length_cons,
        List.length_append, List.length_nil]
      omega

theorem sizeL_le (x : JsonList) : sizeL x ≤ 2 * (stringifyItems x).length + 2 := by
  cases x with
  | nil => simp only [sizeL, stringifyItems, List.length_nil]; omega
  | cons v t =>
    have h1 := sizeJ_le v
    have h2 := sizeL_le t
    simp only [sizeL, stringifyItems, List.length_cons, List.length_append]
    omega

theorem sizeO_le (x : JsonObj) : sizeO x ≤ 2 * (stringifyMembers x).length + 2 := by
  cases x with
  | nil => simp only [sizeO, stringifyMembers, List.length_nil]; omega
  | cons k v t =>
    have h1 := sizeJ_le v
    have h2 := sizeO_le t
    simp only [sizeO, stringifyMembers, quoteString, List.length_cons, List.length_append]
    omega

end

/-- `JSON.parse (JSON.stringify v)` returns `v` itself: the storage blobs
written by the save handlers decode back without loss. -/
theorem parseJsonTop_stringify (v : Json) : parseJsonTop (stringifyJson v) = some v := by
  have hsize : sizeJ v ≤ 2 * (stringifyJson v).length + 2 :=
    le_trans (sizeJ_le v) (by omega)
  have h := parseValue_print v (2 * (stringifyJson v).length + 2) [] hsize rfl
  rw [List.append_nil] at h
  unfold parseJsonTop
  rw [h]
  rfl

/-! ## Substring occurrence

`containsSub pat l` decides whether `pat` occurs contiguously in `l`,
used to state what a prompt does and does not instruct. -/

def containsSub (pat : List Char) : List Char → Bool
  | [] => pat.isPrefixOf []
  | c :: rest => pat.isPrefixOf (c :: rest) || containsSub pat rest

theorem nil_isPrefixOf (l : List Char) : ([] : List Char).isPrefixOf l = true := by
  cases l <;> rfl

theorem isPrefixOf_refl (l : List Char) : l.isPrefixOf l = true := by
  induction l with
  | nil => rfl
  | cons c rest ih => simp [List.isPrefixOf, ih]

theorem isPrefixOf_append (p : List Char) :
    ∀ l t, p.isPrefixOf l = true → p.isPrefixOf (l ++ t) = true := by
  induction p with
  | nil => intro l t _; exact nil_isPrefixOf _
  | cons a as ih =>
    intro l t h
    match l with
    | [] => exact absurd h (by simp [List.isPrefixOf])
    | b :: bs =>
      simp only [List.isPrefixOf, Bool.and_eq_true, beq_iff_eq] at h
      simp only [List.cons_append, List.isPrefixOf, Bool.and_eq_true, beq_iff_eq]
      exact ⟨h.1, ih bs t h.2⟩

theorem containsSub_nil (l : List Char) : containsSub [] l = true := by
  cases l <;> simp [containsSub, nil_isPrefixOf]

theorem containsSub_self (pat : List Char) : containsSub pat pat = true := by
  cases pat with
  | nil => rfl
  | cons c rest => simp [containsSub, isPrefixOf_refl]

/-- An occurrence survives text prepended on the left. -/
theorem containsSub_append_right (pat : List Char) :
    ∀ a l, containsSub pat l = true → containsSub pat (a ++ l) = true := by
  intro a
  induction a with
  | nil => exact fun l h => h
  | cons x a ih =>
    intro l h
    simp only [List.cons_append, containsSub, Bool.or_eq_true]
    exact Or.inr (ih l h)

/-- An occurrence survives text appended on the right. -/
theorem containsSub_append_left (pat : List Char) :
    ∀ l b, containsSub pat l = true → containsSub pat (l ++ b) = true := by
  intro l
  induction l with
  | nil =>
    intro b h
    match pat, h with
    | [], _ => exact containsSub_nil b
  | cons c rest ih =>
    intro b h
    simp only [containsSub, Bool.or_eq_true] at h
    simp only [List.cons_append, containsSub, Bool.or_eq_true]
    rcases h with h | h
    · exact Or.inl (isPrefixOf_append pat _ b h)
    · exact Or.inr (ih b h)

/-- Occurrence in the middle segment of a three-part concatenation. -/
theorem containsSub_sandwich (pat a mid b : List Char) (h : containsSub pat mid = true) :
    containsSub pat (a ++ (mid ++ b)) = true :=
  containsSub_append_right pat a _ (containsSub_append_left pat mid b h)

/-! ## HTTP-shaped results and the generation-service collaborator -/

/-- A record as the list endpoints return it: generated id, decoded
payload, creation timestamp. -/
structure ParsedRecord where
  id : Nat
  payload : Json
  created_at : Nat
  deriving DecidableEq

/-- The JSON body of a response: a decoded document, an `{error: ...}`
object, a `{message: ...}` object, or a sequence of records. -/
inductive RespBody where
  | ok (j : Json)
  | err (m : List Char)
  | msg (m : List Char)
  | records (rs : List ParsedRecord)
  deriving DecidableEq

structure HttpResp where
  status : Nat
  body : RespBody
  deriving DecidableEq

/-- The external generation service, modelled as canned responses indexed
by how many calls were made so far; `calls` counts invocations. -/
structure GenService where
  calls : Nat
  respond : Nat → Except Unit (List Char)

/-- One `model.generateContent(prompt)` call: returns the canned response
for the current call index and bumps the counter.  A thrown service error
is the `Except.error` case. -/
def invokeGen (_prompt : List Char) (s : GenService) : Except Unit (List Char) × GenService :=
  (s.respond s.calls, { s with calls := s.calls + 1 })

/-! ## Prompt builders -/

/-- `PlanRequest` as destructured by `getMealPlanPrompt` in `src/server.js`. -/
structure PlanPayload where
  ingredientsText : Option (List Char)
  cuisine : List Char
  days : Int
  mealTypes : List (List Char)
  familySize : Int
  dietaryType : Option (List Char)

/-- The from-scratch alternative of `ingredientsString` (line 34 of
`src/server.js`). -/
def fromScratchInstr : List Char :=
  "The user is starting from scratch. Generate a meal plan and a comprehensive shopping list for all needed items.".toList

def hasIngrPre : List Char := "The user has these ingredients: ".toList

def hasIngrPost : List Char :=
  ". Prioritize using leftovers and ingredients with early expiry dates.".toList

/-- The truthiness-and-trim test `ingredientsText && ingredientsText.trim() !== ""`. -/
def hasIngredients (p : PlanPayload) : Bool :=
  match p.ingredientsText with
  | some t => (t != []) && (jsTrim t != [])
  | none => false

def ingredientsStringOf (p : PlanPayload) : List Char :=
  if hasIngredients p then hasIngrPre ++ (p.ingredientsText.getD [] ++ hasIngrPost)
  else fromScratchInstr

def asciiLower (c : Char) : Char :=
  if 'A' ≤ c ∧ c ≤ 'Z' then Char.ofNat (c.toNat + 32) else c

def jsToLower (l : List Char) : List Char := l.map asciiLower

/-- `dietaryType && dietaryType.toLowerCase() !== "none" ? ... : ""`. -/
def dietStringOf (p : PlanPayload) : List Char :=
  match p.dietaryType with
  | some d =>
    if (d != []) && (jsToLower d != "none".toList) then
      "The entire plan must be ".toList ++ (d ++ ".".toList)
    else []
  | none => []

def joinComma (xs : List (List Char)) : List Char := List.intercalate ", ".toList xs

def mpTpl1 : List Char :=
  "\n        You are an expert AI meal planner. Create a detailed meal plan based on the user\x27s request.\n        Request Details:\n        - Cuisine: ".toList

def mpTpl2 : List Char := "\n        - Duration: ".toList

def mpTpl3 : List Char := " days\n        - Family Size: ".toList

def mpTpl4 : List Char := " people\n        - Meals to Include: ".toList

def mpTpl5 : List Char := "\n        - Dietary Needs: ".toList

def mpTpl6 : List Char := "\n        - Available Ingredients: ".toList

def mpTpl7 : List Char :=
  "\n        \n        Generate a complete plan, scaling all recipes for the specified family size and ensuring every meal has a title and detailed, step-by-step instructions. Instructions should be clear and comprehensive.\n    ".toList

/-- `getMealPlanPrompt` from `src/server.js` lines 27–53. -/
def getMealPlanPrompt (p : PlanPayload) : List Char :=
  mpTpl1 ++ (p.cuisine ++ (mpTpl2 ++ (intChars p.days ++ (mpTpl3 ++ (intChars p.familySize
    ++ (mpTpl4 ++ (joinComma p.mealTypes ++ (mpTpl5
    ++ ((if dietStringOf p = [] then "None".toList else dietStringOf p)
    ++ (mpTpl6 ++ (ingredientsStringOf p ++ mpTpl7)))))))))))

/-- `RecipeRequest` as destructured by `getRecipePrompt` in
`src/unnamed/part_000`. -/
structure RecipeBody where
  ingredientsText : Option (List Char)
  mealName : Option (List Char)

/-- JavaScript `x || d` on an optional string. -/
def jsOrElse (o : Option (List Char)) (d : List Char) : List Char :=
  match o with
  | some s => if s = [] then d else s
  | none => d

/-- The `request` phrase of `getRecipePrompt`: `mealName ? ... : ...`. -/
def recipeRequestPhrase (b : RecipeBody) : List Char :=
  match b.mealName with
  | some m =>
    if m = [] then "using the ingredients provided".toList
    else "for \"".toList ++ (m ++ "\"".toList)
  | none => "using the ingredients provided".toList

/-- `getRecipePrompt` from `src/unnamed/part_000` lines 64–77. -/
def getRecipePrompt (b : RecipeBody) : List Char :=
  ("\n    You are an expert AI recipe creator. Generate a recipe ".toList ++ (recipeRequestPhrase b
    ++ (".\n    User\x27s Request:\n    - Ingredients: ".toList
    ++ (jsOrElse b.ingredientsText "None".toList
    ++ ("\n    - Meal Name: ".toList
    ++ (jsOrElse b.mealName "Not specified".toList
    ++ "\n    Your Task & Strict Rules:\n    1.  Generate a single, clear recipe.\n    2.  The recipe object MUST contain: \"title\", \"cuisine\", \"ingredients\", \"instructions\", and \"nutritionInfo\".\n    3.  Respond with ONLY a valid JSON object in the format: \x7b \"type\": \"single_recipe\", \"data\": \x7b...recipeObject...\x7d \x7d\n  ".toList))))))

/-- The body fields interpolated by `getIngredientsPrompt` in
`src/unnamed/part_000`. -/
structure IngredientsBody where
  ingredientsText : List Char
  mealTypes : List (List Char)
  cuisine : List Char
  dietaryType : List Char
  days : Int
  familySize : Int

/-- `getIngredientsPrompt` from `src/unnamed/part_000` lines 27–43. -/
def getIngredientsPrompt (b : IngredientsBody) : List Char :=
  "\n    You are an expert AI meal planner. Generate a multi-day meal plan based on the user\x27s ingredients.\n    User\x27s Request:\n    - Ingredients: ".toList
    ++ (b.ingredientsText
    ++ (". Prioritize items with expiry dates.\n    - Meal Types: ".toList
    ++ (joinComma b.mealTypes
    ++ ("\n    - Cuisine: ".toList
    ++ (b.cuisine
    ++ ("\n    - Dietary Needs: ".toList
    ++ (b.dietaryType
    ++ ("\n    - Duration: ".toList
    ++ (intChars b.days
    ++ (" days\n    - Family Size: ".toList
    ++ (intChars b.familySize
    ++ " people\n    Your Task & Strict Rules:\n    1.  Generate a meal plan for the exact number of days requested.\n    2.  For EVERY meal, you MUST include: \"title\", \"cuisine\", \"healthTag\", \"ingredientsUsed\", \"missingIngredients\", and \"instructions\".\n    3.  Respond with ONLY a valid JSON object in the format: \x7b \"type\": \"meal_plan\", \"data\": [\x7b...mealObject...\x7d] \x7d\n  ".toList)))))))))))

/-! ## Request orchestrators -/

/-- `handleApiRequest` from `src/unnamed/part_000` lines 81–101: body
check, prompt build, single generation call, sanitize, decode, respond.
`β` is the request-body type of the endpoint variant. -/
def handleApiRequest {β : Type} (body : Option β) (getPrompt : β → List Char)
    (svc : GenService) : HttpResp × GenService :=
  match body with
  | none => (⟨400, .err "Request body is missing.".toList⟩, svc)
  | some b =>
    let prompt := getPrompt b
    let (r, svc') := invokeGen prompt svc
    match r with
    | .error _ =>
      (⟨500, .err "Failed to generate response due to a server error.".toList⟩, svc')
    | .ok text =>
      match parseJsonTop (cleanAIResponse (some text)) with
      | some j => (⟨200, .ok j⟩, svc')
      | none =>
        (⟨500, .err "The AI returned a response in an unreadable format.".toList⟩, svc')

/-- The `/api/generate-plan` handler from `src/server.js` lines 109–153.
Note: the raw `responseText` is passed to `JSON.parse` directly; the
sanitizer `cleanAIResponse` is defined in this file but never called. -/
def generatePlanHandler (body : Option PlanPayload) (svc : GenService) :
    HttpResp × GenService :=
  match body with
  | none => (⟨400, .err "Request body is missing.".toList⟩, svc)
  | some b =>
    let prompt := getMealPlanPrompt b
    let (r, svc') := invokeGen prompt svc
    match r with
    | .error _ =>
      (⟨500, .err "Failed to generate meal plan due to a server error.".toList⟩, svc')
    | .ok responseText =>
      match parseJsonTop responseText with
      | some j => (⟨200, .ok j⟩, svc')
      | none =>
        (⟨500,
          .err "The AI returned a response in an unreadable format. Please try again.".toList⟩,
          svc')

/-! ## The record store and persistence handlers -/

/-- A stored row: autogenerated id, serialized blob, creation timestamp. -/
structure StoredRecord where
  id : Nat
  blob : List Char
  created_at : Nat
  deriving DecidableEq

/-- One table of the record store. -/
structure Table where
  rows : List StoredRecord
  nextId : Nat
  deriving DecidableEq

def insertRow (db : Table) (blob : List Char) (now : Nat) : Table :=
  ⟨db.rows ++ [⟨db.nextId, blob, now⟩], db.nextId + 1⟩

/-- `/api/save-meal-plan` (`src/server.js` lines 156–169): requires a
truthy `mealPlan`, stores `JSON.stringify(mealPlan)`. -/
def saveMealPlan (mealPlan : Option Json) (db : Table) (now : Nat) : HttpResp × Table :=
  match mealPlan with
  | some v =>
    if jsTruthy v then
      (⟨201, .msg "Meal plan saved successfully!".toList⟩, insertRow db (stringifyJson v) now)
    else (⟨400, .err "Meal plan data is required.".toList⟩, db)
  | none => (⟨400, .err "Meal plan data is required.".toList⟩, db)

/-- `JSON.parse` mapped over the stored rows; any unparsable blob throws,
which the route converts to a 500. -/
def parseRows : List StoredRecord → Option (List ParsedRecord)
  | [] => some []
  | r :: rs =>
    match parseJsonTop r.blob, parseRows rs with
    | some j, some ps => some (⟨r.id, j, r.created_at⟩ :: ps)
    | _, _ => none

/-- `/api/get-meal-plans` (`src/server.js` lines 172–185). -/
def getMealPlans (db : Table) : HttpResp :=
  match parseRows db.rows with
  | some rs => ⟨200, .records rs⟩
  | none => ⟨500, .err "Failed to fetch meal plans.".toList⟩

/-- `/api/add-favorite-meal` (`src/server.js` lines 193–205). -/
def addFavoriteMeal (mealData : Option Json) (db : Table) (now : Nat) : HttpResp × Table :=
  match mealData with
  | some v =>
    if jsTruthy v then
      (⟨201, .msg "Meal added to favorites!".toList⟩, insertRow db (stringifyJson v) now)
    else (⟨400, .err "Meal data is required.".toList⟩, db)
  | none => (⟨400, .err "Meal data is required.".toList⟩, db)

/-- The `where({id: mealId})` match of the delete, for a numeric id. -/
def rowMatchesId (mealId : Json) (r : StoredRecord) : Bool :=
  mealId == Json.num (Int.ofNat r.id)

/-- `/api/remove-favorite-meal` (`src/server.js` lines 208–220): requires
a truthy `mealId`, then deletes the matching rows. -/
def removeFavoriteMeal (mealId : Option Json) (db : Table) : HttpResp × Table :=
  match mealId with
  | some v =>
    if jsTruthy v then
      (⟨200, .msg "Meal removed from favorites!".toList⟩,
        ⟨db.rows.filter (fun r => !(rowMatchesId v r)), db.nextId⟩)
    else (⟨400, .err "Meal ID is required.".toList⟩, db)
  | none => (⟨400, .err "Meal ID is required.".toList⟩, db)

/-! ## Accessors and fixtures used by the claim theorems -/

def jsonObjLookup (k : List Char) : JsonObj → Option Json
  | .nil => none
  | .cons k2 v t => if k2 = k then some v else jsonObjLookup k t

def jsonLookup (k : List Char) : Json → Option Json
  | .obj kvs => jsonObjLookup k kvs
  | _ => none

def jsonHasKey (k : List Char) (j : Json) : Bool := (jsonLookup k j).isSome

def jsonLenL : JsonList → Nat
  | .nil => 0
  | .cons _ t => jsonLenL t + 1

def jsonArrLen : Json → Option Nat
  | .arr xs => some (jsonLenL xs)
  | _ => none

/-- The decoded document of a successful response, if any. -/
def docOf : RespBody → Option Json
  | .ok j => some j
  | _ => none

/-- The fenced generation-service output of the end-to-end scenario in the
specification: a valid MealPlanDocument with one Day 1 lunch entry and no
shopping_list, wrapped in fence markers. -/
def scenarioText : List Char :=
  "\x60\x60\x60json\n\x7b\"meal_plan\":[\x7b\"day\":\"Day 1\",\"lunch\":\x7b\"title\":\"Thai Chicken Rice\",\"instructions\":[\"Cook rice\",\"Stir-fry chicken\"],\"ingredientsUsed\":[\"chicken\",\"rice\"],\"missingIngredients\":[]\x7d\x7d]\x7d\n\x60\x60\x60".toList

/-- A fake invoker returning the fenced scenario text on every call. -/
def scenarioService : GenService := ⟨0, fun _ => Except.ok scenarioText⟩

def scenarioIngredientsBody : IngredientsBody :=
  ⟨"chicken, rice".toList, ["Lunch".toList, "Dinner".toList], "Thai".toList, "None".toList, 2, 4⟩

def scenarioPlanPayload : PlanPayload :=
  ⟨some "chicken, rice".toList, "Thai".toList, 2, ["Lunch".toList, "Dinner".toList], 4, none⟩

/-- The response of the sanitizing orchestrator on the scenario. -/
def c1Response : HttpResp :=
  (handleApiRequest (some scenarioIngredientsBody) getIngredientsPrompt scenarioService).1

/-! ## Claim theorems -/

set_option maxRecDepth 40000 in
/-- **C1** (amended).  The `handleApiRequest` orchestrator of
`src/unnamed/part_000` (generate-from-ingredients, plan-from-scratch,
find-recipe) runs the sanitizer on the raw generation text before the
decoder: with a fake invoker returning the fenced scenario text, the
request succeeds and the returned document has no `shopping_list` key and
exactly one `meal_plan` entry.  The `/api/generate-plan` endpoint of
`src/server.js`, by contrast, decodes the raw text directly (see the
counterexample theorem). -/
theorem handleApiRequest_sanitizes_fenced_scenario :
    c1Response.status = 200
    ∧ (docOf c1Response.body).map (jsonHasKey "shopping_list".toList) = some false
    ∧ ((docOf c1Response.body).bind (jsonLookup "meal_plan".toList)).bind jsonArrLen
        = some 1 := by
  decide

set_option maxRecDepth 40000 in
/-- **C1** counterexample.  The claim as stated fails on
`/api/generate-plan` (`src/server.js`): the handler passes the raw
generation text to `JSON.parse` without running the sanitizer, so the
fenced scenario text produces the decode fault, not a success. -/
theorem generatePlan_raw_fenced_scenario_decode_fault :
    (generatePlanHandler (some scenarioPlanPayload) scenarioService).1
      = ⟨500, RespBody.err
          "The AI returned a response in an unreadable format. Please try again.".toList⟩ := by
  decide

/-- **C2** (amended).  The find-recipe orchestrator validates only the
presence of a request body: a missing body yields the 400-equivalent
"Request body is missing." response with the generation service never
invoked, while every present body — including one lacking both
`recipeRequest`/`mealName` and `ingredientsText` — results in exactly one
generation-service call. -/
theorem findRecipe_short_circuits_only_on_missing_body :
    ∀ (svc : GenService) (b : RecipeBody),
      handleApiRequest (none : Option RecipeBody) getRecipePrompt svc
        = (⟨400, RespBody.err "Request body is missing.".toList⟩, svc)
      ∧ (handleApiRequest (some b) getRecipePrompt svc).2.calls = svc.calls + 1 := by
  intro svc b
  refine ⟨rfl, ?_⟩
  rcases hr : svc.respond svc.calls with e | text
  · simp [handleApiRequest, invokeGen, hr]
  · rcases hp : parseJsonTop (cleanAIResponse (some text)) with _ | j <;>
      simp [handleApiRequest, invokeGen, hr, hp]

/-- **C2** counterexample.  A find-recipe body lacking both a recipe name
and ingredients is not rejected: the generation invoker is called once and
the response is not a client error, contradicting the claimed 400
short-circuit. -/
theorem findRecipe_empty_fields_reach_invoker :
    (handleApiRequest (some (⟨none, none⟩ : RecipeBody)) getRecipePrompt
        ⟨0, fun _ => Except.ok "\x7b\x7d".toList⟩).2.calls = 1
    ∧ (handleApiRequest (some (⟨none, none⟩ : RecipeBody)) getRecipePrompt
        ⟨0, fun _ => Except.ok "\x7b\x7d".toList⟩).1.status ≠ 400 := by
  decide

/-- **C3** counterexample.  The sanitizer is not idempotent: on six
backticks one pass strips only the trailing marker, leaving three
backticks, which a second pass strips to the empty string. -/
theorem cleanAIResponse_not_idempotent :
    cleanAIResponse (some (cleanAIResponse (some "\x60\x60\x60\x60\x60\x60".toList)))
      ≠ cleanAIResponse (some "\x60\x60\x60\x60\x60\x60".toList) := by
  decide

/-- **C3** (amended).  The sanitizer strips at most one leading
fence-opening marker and one trailing fence-closing marker per call; it is
idempotent exactly on the inputs whose sanitized form retains no leading
`fenceOpen` and no trailing `fenceClose` marker. -/
theorem cleanAIResponse_idem_of_no_residual_marker :
    ∀ t : Option (List Char),
      fenceOpen.isPrefixOf (cleanAIResponse t) = false →
      fenceClose.isSuffixOf (cleanAIResponse t) = false →
      cleanAIResponse (some (cleanAIResponse t)) = cleanAIResponse t := by
  intro t h1 h2
  by_cases hy : cleanAIResponse t = []
  · rw [hy]; rfl
  · have htr := jsTrim_cleanAIResponse t
    show (match some (cleanAIResponse t) with
      | none => []
      | some s => if s = [] then [] else stripFenceClose (stripFenceOpen (jsTrim s)))
        = cleanAIResponse t
    simp only
    rw [if_neg hy, htr]
    unfold stripFenceOpen
    rw [if_neg (by simp [h1])]
    unfold stripFenceClose
    rw [if_neg (by simp [h2])]

/-- **C3** witness: a marker-free input on which the amended idempotence
theorem applies. -/
theorem cleanAIResponse_idem_witness :
    fenceOpen.isPrefixOf (cleanAIResponse (some "hello".toList)) = false
    ∧ fenceClose.isSuffixOf (cleanAIResponse (some "hello".toList)) = false
    ∧ cleanAIResponse (some (cleanAIResponse (some "hello".toList)))
        = cleanAIResponse (some "hello".toList) :=
  ⟨by decide, by decide,
    cleanAIResponse_idem_of_no_residual_marker (some "hello".toList) (by decide) (by decide)⟩

/-- **C4**.  A generation response that fails strict JSON decoding yields
a 500 response whose body is a fixed generic message — the same constant
for every failing text, so the offending raw text cannot appear in the
response body, and no exception escapes (the handler is a total function
into responses).  Both orchestrators are covered: `handleApiRequest`
decodes the sanitized text, `/api/generate-plan` decodes the raw text. -/
theorem decode_fault_yields_generic_500 :
    ∀ (b : RecipeBody) (p : PlanPayload) (svc : GenService) (text : List Char),
      svc.respond svc.calls = Except.ok text →
      parseJsonTop (cleanAIResponse (some text)) = none →
      parseJsonTop text = none →
      (handleApiRequest (some b) getRecipePrompt svc).1
          = ⟨500, RespBody.err "The AI returned a response in an unreadable format.".toList⟩
        ∧ (generatePlanHandler (some p) svc).1
          = ⟨500, RespBody.err
              "The AI returned a response in an unreadable format. Please try again.".toList⟩ := by
  intro b p svc text hr hp1 hp2
  constructor
  · simp [handleApiRequest, invokeGen, hr, hp1]
  · simp [generatePlanHandler, invokeGen, hr, hp2]

/-- **C4** witness: the literal text "not json" fails decoding and both
orchestrators answer with their fixed generic 500 body. -/
theorem decode_fault_yields_generic_500_witness :
    (handleApiRequest (some (⟨none, none⟩ : RecipeBody)) getRecipePrompt
        ⟨0, fun _ => Except.ok "not json".toList⟩).1
      = ⟨500, RespBody.err "The AI returned a response in an unreadable format.".toList⟩
    ∧ (generatePlanHandler (some scenarioPlanPayload)
        ⟨0, fun _ => Except.ok "not json".toList⟩).1
      = ⟨500, RespBody.err
          "The AI returned a response in an unreadable format. Please try again.".toList⟩ :=
  decode_fault_yields_generic_500 ⟨none, none⟩ scenarioPlanPayload
    ⟨0, fun _ => Except.ok "not json".toList⟩ "not json".toList rfl (by decide) (by decide)

/-- **C5**.  Per generate request exactly one generation-service call is
made (the call counter advances by one whatever the outcome, so there is
no retry), a thrown service call yields the 500 "generation failed"
response, and that message differs from the decode-fault message, keeping
GenerationFault and DecodeFault distinguishable at the HTTP boundary. -/
theorem generatePlan_single_call_distinct_faults :
    ∀ (p : PlanPayload) (svc : GenService),
      (generatePlanHandler (some p) svc).2.calls = svc.calls + 1
      ∧ (svc.respond svc.calls = Except.error () →
          (generatePlanHandler (some p) svc).1
            = ⟨500, RespBody.err "Failed to generate meal plan due to a server error.".toList⟩)
      ∧ "Failed to generate meal plan due to a server error.".toList
          ≠ "The AI returned a response in an unreadable format. Please try again.".toList := by
  intro p svc
  refine ⟨?_, ?_, by decide⟩
  · rcases hr : svc.respond svc.calls with e | text
    · simp [generatePlanHandler, invokeGen, hr]
    · rcases hp : parseJsonTop text with _ | j <;>
        simp [generatePlanHandler, invokeGen, hr, hp]
  · intro he
    simp [generatePlanHandler, invokeGen, he]

/-- **C5** witness: with a service that throws on its single call, the
handler has made exactly one call and answers the generation-failure
500. -/
theorem generatePlan_single_call_distinct_faults_witness :
    (generatePlanHandler (some scenarioPlanPayload) ⟨0, fun _ => Except.error ()⟩).2.calls = 1
    ∧ (generatePlanHandler (some scenarioPlanPayload) ⟨0, fun _ => Except.error ()⟩).1
        = ⟨500, RespBody.err "Failed to generate meal plan due to a server error.".toList⟩ := by
  have h := generatePlan_single_call_distinct_faults scenarioPlanPayload
    ⟨0, fun _ => Except.error ()⟩
  exact ⟨h.1, h.2.1 rfl⟩

/-- The prioritize instruction of the with-ingredients branch. -/
def prioritizeInstr : List Char :=
  "Prioritize using leftovers and ingredients with early expiry dates.".toList

/-- The representative request of the specification: non-blank
ingredients. -/
def specSamplePayload : PlanPayload :=
  ⟨some "2 eggs, leftover rice".toList, "Thai".toList, 2,
    ["Lunch".toList, "Dinner".toList], 4, none⟩

/-- A request with blank ingredients (from-scratch mode). -/
def blankSamplePayload : PlanPayload :=
  ⟨none, "Thai".toList, 2, ["Lunch".toList, "Dinner".toList], 4, none⟩

/-- A request whose ingredients text is the from-scratch instruction
itself, interpolated verbatim into the prompt. -/
def echoPayload : PlanPayload :=
  ⟨some fromScratchInstr, "Thai".toList, 2, ["Lunch".toList, "Dinner".toList], 4, none⟩

set_option maxRecDepth 40000 in
/-- **C6** (amended).  Branching of the meal-plan prompt builder: a blank
or absent `ingredientsText` puts the from-scratch shopping-list
instruction into the prompt; a non-blank one interpolates the text
verbatim and adds the prioritize-leftovers instruction.  The absence of
the from-scratch instruction holds for the representative non-blank
request of the specification, not for every request, since user fields
are interpolated verbatim (see the counterexample theorem). -/
theorem mealPlanPrompt_ingredient_branching :
    (∀ p : PlanPayload, hasIngredients p = false →
        containsSub fromScratchInstr (getMealPlanPrompt p) = true)
    ∧ (∀ (p : PlanPayload) (t : List Char), p.ingredientsText = some t →
        hasIngredients p = true →
        containsSub t (getMealPlanPrompt p) = true
          ∧ containsSub prioritizeInstr (getMealPlanPrompt p) = true)
    ∧ containsSub fromScratchInstr (getMealPlanPrompt specSamplePayload) = false := by
  refine ⟨?_, ?_, by decide⟩
  · intro p h
    have hing : ingredientsStringOf p = fromScratchInstr := by
      simp [ingredientsStringOf, h]
    unfold getMealPlanPrompt
    rw [hing]
    iterate 11 apply containsSub_append_right
    apply containsSub_append_left
    exact containsSub_self _
  · intro p t ht h
    have hing : ingredientsStringOf p = hasIngrPre ++ (t ++ hasIngrPost) := by
      simp [ingredientsStringOf, h, ht]
    constructor
    · unfold getMealPlanPrompt
      rw [hing]
      iterate 11 apply containsSub_append_right
      apply containsSub_append_left
      apply containsSub_append_right
      apply containsSub_append_left
      exact containsSub_self _
    · unfold getMealPlanPrompt
      rw [hing]
      iterate 11 apply containsSub_append_right
      apply containsSub_append_left
      iterate 2 apply containsSub_append_right
      decide

set_option maxRecDepth 40000 in
/-- **C6** counterexample.  The universal negative of the claim fails:
a request whose non-blank `ingredientsText` is the from-scratch sentence
itself produces a prompt that does contain the from-scratch shopping-list
instruction, because user text is interpolated verbatim. -/
theorem mealPlanPrompt_interpolation_counterexample :
    hasIngredients echoPayload = true
    ∧ containsSub fromScratchInstr (getMealPlanPrompt echoPayload) = true := by
  constructor
  · decide
  · decide

/-- **C6** witness: the branching theorem applied to the blank request
and to the representative non-blank request of the specification. -/
theorem mealPlanPrompt_ingredient_branching_witness :
    containsSub fromScratchInstr (getMealPlanPrompt blankSamplePayload) = true
    ∧ containsSub "2 eggs, leftover rice".toList (getMealPlanPrompt specSamplePayload) = true
    ∧ containsSub prioritizeInstr (getMealPlanPrompt specSamplePayload) = true := by
  have h := mealPlanPrompt_ingredient_branching
  exact ⟨h.1 blankSamplePayload rfl,
    (h.2.1 specSamplePayload "2 eggs, leftover rice".toList rfl (by decide)).1,
    (h.2.1 specSamplePayload "2 eggs, leftover rice".toList rfl (by decide)).2⟩

/-- Rows that all decode successfully make `parseRows` succeed. -/
theorem parseRows_all :
    ∀ rows : List StoredRecord, (∀ r ∈ rows, (parseJsonTop r.blob).isSome) →
      ∃ ps, parseRows rows = some ps := by
  intro rows
  induction rows with
  | nil => exact fun _ => ⟨[], rfl⟩
  | cons r rs ih =>
    intro h
    obtain ⟨j, hj⟩ := Option.isSome_iff_exists.mp (h r (by simp))
    obtain ⟨ps, hps⟩ := ih (fun r2 hr2 => h r2 (by simp [hr2]))
    exact ⟨⟨r.id, j, r.created_at⟩ :: ps, by simp [parseRows, hj, hps]⟩

theorem parseRows_append :
    ∀ (xs ys : List StoredRecord) (ps qs : List ParsedRecord),
      parseRows xs = some ps → parseRows ys = some qs →
      parseRows (xs ++ ys) = some (ps ++ qs) := by
  intro xs
  induction xs with
  | nil =>
    intro ys ps qs hx hy
    simp only [parseRows] at hx
    cases hx
    simpa using hy
  | cons r rs ih =>
    intro ys ps qs hx hy
    simp only [parseRows] at hx
    rcases hj : parseJsonTop r.blob with _ | j <;> rw [hj] at hx
    · exact absurd hx (by simp)
    · rcases hrs : parseRows rs with _ | ps2 <;> rw [hrs] at hx
      · exact absurd hx (by simp)
      · have hps : ps = ⟨r.id, j, r.created_at⟩ :: ps2 := by
          cases hx
          rfl
        subst hps
        simp only [List.cons_append, parseRows, hj, List.append_eq,
          ih ys ps2 qs hrs hy]

/-- **C7** (amended).  Save/list round-trip for truthy payloads: saving
`{mealPlan: v}` appends a record whose blob is `JSON.stringify v`, and a
subsequent list-plans — on a store whose existing blobs all decode —
succeeds and contains a record with the generated id, the creation
timestamp, and a decoded payload equal to `v` itself (the codec loses
nothing, by `parseJsonTop_stringify`).  Falsy JSON values are rejected
before the store is touched (see the counterexample theorem and C10). -/
theorem save_then_list_returns_payload :
    ∀ (v : Json) (db : Table) (now : Nat),
      jsTruthy v = true →
      (∀ r ∈ db.rows, (parseJsonTop r.blob).isSome) →
      ∃ rs, getMealPlans (saveMealPlan (some v) db now).2 = ⟨200, RespBody.records rs⟩
        ∧ (⟨db.nextId, v, now⟩ : ParsedRecord) ∈ rs := by
  intro v db now htr hall
  have hdb : (saveMealPlan (some v) db now).2 = insertRow db (stringifyJson v) now := by
    simp [saveMealPlan, htr]
  obtain ⟨ps, hps⟩ := parseRows_all db.rows hall
  have hnew : parseRows [⟨db.nextId, stringifyJson v, now⟩] = some [⟨db.nextId, v, now⟩] := by
    simp [parseRows, parseJsonTop_stringify]
  have happ := parseRows_append db.rows [⟨db.nextId, stringifyJson v, now⟩]
    ps [⟨db.nextId, v, now⟩] hps hnew
  refine ⟨ps ++ [⟨db.nextId, v, now⟩], ?_, by simp⟩
  rw [hdb]
  simp [getMealPlans, insertRow, happ]

/-- An empty meal-plan table with the first autogenerated id. -/
def emptyDb : Table := ⟨[], 1⟩

/-- A sample opaque meal-plan document. -/
def sampleDoc : Json := Json.obj (.cons "a".toList (Json.num 1) .nil)

/-- **C7** witness: saving a sample document into an empty store and
listing returns the record carrying it. -/
theorem save_then_list_returns_payload_witness :
    ∃ rs, getMealPlans (saveMealPlan (some sampleDoc) emptyDb 0).2
        = ⟨200, RespBody.records rs⟩
      ∧ (⟨1, sampleDoc, 0⟩ : ParsedRecord) ∈ rs :=
  save_then_list_returns_payload sampleDoc emptyDb 0 (by decide)
    (by intro r hr; simp [emptyDb] at hr)

/-- **C7** counterexample.  The round-trip claim fails for the JSON value
`0`: save-plan rejects it with the 400 "required" error, the store is
unchanged, and list-plans returns no record at all, let alone one whose
payload deep-equals `0`. -/
theorem save_falsy_mealPlan_rejected :
    saveMealPlan (some (Json.num 0)) emptyDb 0
      = (⟨400, RespBody.err "Meal plan data is required.".toList⟩, emptyDb)
    ∧ getMealPlans emptyDb = ⟨200, RespBody.records []⟩ := by
  exact ⟨rfl, rfl⟩

/-- **C8**.  Validation precedes persistence: a request missing its
required body field is answered with the 400 response naming that field,
and the store is returned unchanged — no insert or delete happens. -/
theorem missing_field_rejected_before_store :
    ∀ (db : Table) (now : Nat),
      saveMealPlan none db now
          = (⟨400, RespBody.err "Meal plan data is required.".toList⟩, db)
      ∧ addFavoriteMeal none db now
          = (⟨400, RespBody.err "Meal data is required.".toList⟩, db)
      ∧ removeFavoriteMeal none db
          = (⟨400, RespBody.err "Meal ID is required.".toList⟩, db) := by
  intro db now
  exact ⟨rfl, rfl, rfl⟩

/-- **C9**.  The sanitizer is total on degenerate input: `null`/`undefined`
(modelled as `none`) and the empty string both map to the empty string,
and every string input yields a string (the function is total by
construction; the length bound exhibits a well-defined result for every
input, with no fault path). -/
theorem cleanAIResponse_total_degenerate :
    cleanAIResponse none = [] ∧ cleanAIResponse (some []) = []
    ∧ ∀ s : List Char, (cleanAIResponse (some s)).length ≤ s.length :=
  ⟨rfl, rfl, cleanAIResponse_length_le⟩

/-- **C10**.  The required-field checks test JavaScript truthiness: a
present but falsy value (`false`, `0`, `""`, `null`) is rejected exactly
like an absent field, with the same 400 response and untouched store; in
particular `remove-favorite` with `mealId = 0` never deletes anything, so
a favorite row with id 0 cannot be removed through this operation. -/
theorem falsy_required_fields_rejected :
    ∀ (db : Table) (now : Nat) (v : Json), jsTruthy v = false →
      saveMealPlan (some v) db now = saveMealPlan none db now
      ∧ addFavoriteMeal (some v) db now = addFavoriteMeal none db now
      ∧ removeFavoriteMeal (some v) db = removeFavoriteMeal none db
      ∧ (removeFavoriteMeal (some (Json.num 0)) db).2 = db := by
  intro db now v hv
  refine ⟨?_, ?_, ?_, ?_⟩ <;>
    simp [saveMealPlan, addFavoriteMeal, removeFavoriteMeal, hv,
      show jsTruthy (Json.num 0) = false from by decide]

/-- **C10** witness: the theorem applied at `v = false` on the empty
store; all four falsy literals are checked falsy. -/
theorem falsy_required_fields_rejected_witness :
    (jsTruthy (Json.bool false) = false ∧ jsTruthy (Json.num 0) = false
      ∧ jsTruthy (Json.str []) = false ∧ jsTruthy Json.null = false)
    ∧ saveMealPlan (some (Json.bool false)) emptyDb 0 = saveMealPlan none emptyDb 0
    ∧ (removeFavoriteMeal (some (Json.num 0)) emptyDb).2 = emptyDb := by
  have h := falsy_required_fields_rejected emptyDb 0 (Json.bool false) (by decide)
  exact ⟨by decide, h.1, h.2.2.2⟩

end WasteNot
